import Mathlib

/-!
Verification of the Impostor-maker atlas-layout and face-geometry engine
(src/impostormaker.py), shallowly embedded in Lean 4.

Conventions used throughout:
* Python ints are modelled as `Int` (or `Nat` where the source value is a count).
* Python floats are modelled as exact rationals `ℚ`; comparisons that the source
  makes on square roots (vector lengths) are rephrased as the algebraically
  equivalent comparisons on squared lengths, which is noted at each definition.
* Fallible code (`raise`) is modelled with `Except String`; a function that
  raises returns `Except.error` and, being pure, leaves every modelled state
  untouched on that path, exactly as an exception aborting the Python function
  before its writes would.
-/

/-! ## Pixel rectangles (the tuples `(x0, y0, x1, y1)` built by `ImageLayout.getrect`) -/

structure PackRect where
  x0 : Int
  y0 : Int
  x1 : Int
  y1 : Int
deriving DecidableEq, Repr

/-- Two pixel rectangles overlap when the half-open pixel ranges
`[x0, x1) x [y0, y1)` intersect on both axes. -/
def rectsOverlap (a b : PackRect) : Prop :=
  max a.x0 b.x0 < min a.x1 b.x1 ∧ max a.y0 b.y0 < min a.y1 b.y1

instance (a b : PackRect) : Decidable (rectsOverlap a b) := by
  unfold rectsOverlap; infer_instance

/-- A rectangle lies inside the `[0, w] x [0, h]` region. -/
def rectInBounds (w h : Int) (r : PackRect) : Prop :=
  0 ≤ r.x0 ∧ r.x0 ≤ r.x1 ∧ r.x1 ≤ w ∧ 0 ≤ r.y0 ∧ r.y0 ≤ r.y1 ∧ r.y1 ≤ h

instance (w h : Int) (r : PackRect) : Decidable (rectInBounds w h r) := by
  unfold rectInBounds; infer_instance

/-! ## `ImageLayout` (impostormaker.py lines 191-254)

State of the shelf packer.  `height = none` models the Python `height = None`
(auto-height) mode used by the first sizing pass; `some h` models the fixed
height of the second pass.  Note that the Python guard `if self.height and ...`
treats a height of `0` like `None`; the model reproduces that truthiness. -/

structure ImageLayout where
  width : Int
  height : Option Int
  margin : Int
  xpos : Int
  ypos : Int
  ymax : Int
  rects : List PackRect
deriving DecidableEq, Repr

/-- `ImageLayout.__init__(margin, width, height)`. -/
def ImageLayout.mkinit (margin width : Int) (height : Option Int) : ImageLayout :=
  { width := width, height := height, margin := margin,
    xpos := 0, ypos := 0, ymax := 0, rects := [] }

/-- Python truthiness of `self.height` in `getrect` and `getsize`:
`None` and `0` are falsy. -/
def ImageLayout.heightTruthy (L : ImageLayout) : Bool :=
  match L.height with
  | none => false
  | some h => decide (h ≠ 0)

/-- Shared tail of `getrect` (lines 225-229): build the corner rectangle,
append it to `self.rects`, then perform the fixed-height overflow check.
The source appends *before* the check, so a layout that raises the overflow
error has still recorded the rectangle. -/
def ImageLayout.finishrect (L1 : ImageLayout) (cx cy w h : Int) :
    Except String (PackRect × ImageLayout) :=
  let rect : PackRect := ⟨cx, cy, cx + w, cy + h⟩
  let L2 : ImageLayout := { L1 with rects := L1.rects ++ [rect] }
  if L2.heightTruthy = true ∧ (∀ hh ∈ L2.height, L2.ypos > hh) then
    Except.error "Image will not fit into desired target image size"
  else
    Except.ok (rect, L2)

/-- `ImageLayout.getrect(width, height)` (lines 207-229).  Returns the placed
rectangle and the updated layout, or raises. -/
def ImageLayout.getrect (L : ImageLayout) (w h : Int) :
    Except String (PackRect × ImageLayout) :=
  if w > L.width - 2 * L.margin then
    Except.error "Image too large to composite into target image"
  else if L.xpos + w + 2 * L.margin < L.width then
    ImageLayout.finishrect
      { L with xpos := L.xpos + w + L.margin,
               ymax := max L.ymax (L.ypos + h + L.margin) }
      (L.xpos + L.margin) (L.ypos + L.margin) w h
  else
    ImageLayout.finishrect
      { L with ypos := L.ymax, xpos := w + L.margin,
               ymax := max L.ymax (L.ymax + h + L.margin) }
      L.margin (L.ymax + L.margin) w h

/-- `ImageLayout.getsize()` (lines 231-237): `(width, height)` when a truthy
height was requested, else `(width, ymax)`. -/
def ImageLayout.getsize (L : ImageLayout) : Int × Int :=
  if L.heightTruthy then (L.width, L.height.getD 0) else (L.width, L.ymax)

/-- Issue a sequence of `getrect` requests in order, collecting the returned
rectangles (models `layoutcomposite`, which calls `getrect` once per sorted
face, lines 569-583; pixel sizes are taken as given integers, the
float-to-pixel `floor` conversion being upstream of this model). -/
def ImageLayout.runReqs (L : ImageLayout) :
    List (Int × Int) → Except String (List PackRect × ImageLayout)
  | [] => Except.ok ([], L)
  | (w, h) :: rest =>
    match L.getrect w h with
    | Except.error e => Except.error e
    | Except.ok (r, L1) =>
      match L1.runReqs rest with
      | Except.error e => Except.error e
      | Except.ok (rs, L2) => Except.ok (r :: rs, L2)

/-! Invariant carried by the packer state: every recorded rectangle is inside
`[0, width] x [0, ymax]`, rectangles end either left of the cursor (current
row) or above the current row start, and all recorded rectangles are pairwise
non-overlapping. -/

def layoutInv (L : ImageLayout) : Prop :=
  0 ≤ L.margin ∧ 0 ≤ L.xpos ∧ 0 ≤ L.ypos ∧ L.ypos ≤ L.ymax ∧
  (∀ r ∈ L.rects,
      rectInBounds L.width L.ymax r ∧ (r.x1 ≤ L.xpos ∨ r.y1 ≤ L.ypos)) ∧
  L.rects.Pairwise (fun a b => ¬ rectsOverlap a b)

theorem layoutInv_mkinit (margin width : Int) (height : Option Int) (hm : 0 ≤ margin) :
    layoutInv (ImageLayout.mkinit margin width height) := by
  refine ⟨hm, le_refl 0, le_refl 0, le_refl 0, ?_, ?_⟩
  · intro r hr; cases hr
  · exact List.Pairwise.nil

theorem finishrect_ok (L1 : ImageLayout) (cx cy w h : Int)
    (r : PackRect) (L2 : ImageLayout)
    (hok : L1.finishrect cx cy w h = Except.ok (r, L2)) :
    r = ⟨cx, cy, cx + w, cy + h⟩ ∧
      L2 = { L1 with rects := L1.rects ++ [(⟨cx, cy, cx + w, cy + h⟩ : PackRect)] } := by
  simp only [ImageLayout.finishrect] at hok
  split at hok
  · cases hok
  · cases hok
    exact ⟨rfl, rfl⟩

theorem layoutInv_getrect (L : ImageLayout) (w h : Int)
    (hL : layoutInv L) (hw0 : 0 ≤ w) (hwW : w ≤ L.width - 2 * L.margin) (hh0 : 0 ≤ h)
    (r : PackRect) (L2 : ImageLayout) (hok : L.getrect w h = Except.ok (r, L2)) :
    layoutInv L2 ∧ L2.width = L.width ∧ L2.height = L.height ∧
      L2.margin = L.margin ∧ L.ymax ≤ L2.ymax ∧ L2.rects = L.rects ++ [r] := by
  obtain ⟨hm, hx, hy, hyx, hrects, hpw⟩ := hL
  unfold ImageLayout.getrect at hok
  rw [if_neg (by omega : ¬ w > L.width - 2 * L.margin)] at hok
  by_cases hfits : L.xpos + w + 2 * L.margin < L.width
  · rw [if_pos hfits] at hok
    obtain ⟨hr, hL2⟩ := finishrect_ok _ _ _ _ _ _ _ hok
    subst hr; subst hL2
    refine ⟨⟨hm, by dsimp; omega, by dsimp; omega, by dsimp; omega, ?_, ?_⟩,
      rfl, rfl, rfl, by dsimp; omega, rfl⟩
    · intro s hs
      dsimp at hs ⊢
      rcases List.mem_append.mp hs with hs | hs
      · obtain ⟨⟨b1, b2, b3, b4, b5, b6⟩, hside⟩ := hrects s hs
        exact ⟨⟨b1, b2, b3, b4, b5, by omega⟩, by omega⟩
      · rw [List.mem_singleton] at hs
        subst hs
        dsimp [rectInBounds]
        refine ⟨⟨by omega, by omega, by omega, by omega, by omega, by omega⟩, by omega⟩
    · dsimp
      rw [List.pairwise_append]
      refine ⟨hpw, by simp, ?_⟩
      intro a ha b hb
      rw [List.mem_singleton] at hb
      subst hb
      obtain ⟨⟨b1, b2, b3, b4, b5, b6⟩, hside⟩ := hrects a ha
      intro hov
      obtain ⟨hox, hoy⟩ := hov
      dsimp [rectsOverlap] at hox hoy
      omega
  · rw [if_neg hfits] at hok
    obtain ⟨hr, hL2⟩ := finishrect_ok _ _ _ _ _ _ _ hok
    subst hr; subst hL2
    refine ⟨⟨hm, by dsimp; omega, by dsimp; omega, by dsimp; omega, ?_, ?_⟩,
      rfl, rfl, rfl, by dsimp; omega, rfl⟩
    · intro s hs
      dsimp at hs ⊢
      rcases List.mem_append.mp hs with hs | hs
      · obtain ⟨⟨b1, b2, b3, b4, b5, b6⟩, hside⟩ := hrects s hs
        exact ⟨⟨b1, b2, b3, b4, b5, by omega⟩, by omega⟩
      · rw [List.mem_singleton] at hs
        subst hs
        dsimp [rectInBounds]
        refine ⟨⟨by omega, by omega, by omega, by omega, by omega, by omega⟩, by omega⟩
    · dsimp
      rw [List.pairwise_append]
      refine ⟨hpw, by simp, ?_⟩
      intro a ha b hb
      rw [List.mem_singleton] at hb
      subst hb
      obtain ⟨⟨b1, b2, b3, b4, b5, b6⟩, hside⟩ := hrects a ha
      intro hov
      obtain ⟨hox, hoy⟩ := hov
      dsimp [rectsOverlap] at hox hoy
      omega

theorem layoutInv_runReqs (reqs : List (Int × Int)) :
    ∀ (L : ImageLayout), layoutInv L →
    (∀ p ∈ reqs, 0 ≤ p.1 ∧ p.1 ≤ L.width - 2 * L.margin ∧ 0 ≤ p.2) →
    ∀ rs L2, L.runReqs reqs = Except.ok (rs, L2) →
    layoutInv L2 ∧ L2.width = L.width ∧ L2.height = L.height ∧
      L2.margin = L.margin ∧ L.ymax ≤ L2.ymax ∧ L2.rects = L.rects ++ rs := by
  induction reqs with
  | nil =>
    intro L hL _ rs L2 hok
    unfold ImageLayout.runReqs at hok
    cases hok
    exact ⟨hL, rfl, rfl, rfl, le_refl _, (List.append_nil _).symm⟩
  | cons p rest ih =>
    intro L hL hreqs rs L2 hok
    obtain ⟨w, h⟩ := p
    unfold ImageLayout.runReqs at hok
    split at hok
    · cases hok
    next r L1 hget =>
      split at hok
      · cases hok
      next rs1 L2a hrun =>
        cases hok
        have hp := hreqs (w, h) (List.mem_cons_self _ _)
        obtain ⟨hinv1, hW1, hH1, hM1, hy1, hr1⟩ :=
          layoutInv_getrect L w h ⟨hL.1, hL.2.1, hL.2.2.1, hL.2.2.2.1,
            hL.2.2.2.2.1, hL.2.2.2.2.2⟩ hp.1 hp.2.1 hp.2.2 r L1 hget
        have hrest : ∀ q ∈ rest, 0 ≤ q.1 ∧ q.1 ≤ L1.width - 2 * L1.margin ∧ 0 ≤ q.2 := by
          intro q hq
          have := hreqs q (List.mem_cons_of_mem _ hq)
          rw [hW1, hM1]; exact this
        obtain ⟨hinv2, hW2, hH2, hM2, hy2, hr2⟩ := ih L1 hinv1 hrest rs1 L2 hrun
        refine ⟨hinv2, by rw [hW2, hW1], by rw [hH2, hH1], by rw [hM2, hM1],
          le_trans hy1 hy2, ?_⟩
        rw [hr2, hr1, List.append_assoc]
        rfl

/-- `getrect` on success appends exactly the returned rectangle to `rects`
(no invariant needed). -/
theorem getrect_rects (L : ImageLayout) (w h : Int) (r : PackRect) (L1 : ImageLayout)
    (hok : L.getrect w h = Except.ok (r, L1)) :
    L1.rects = L.rects ++ [r] := by
  unfold ImageLayout.getrect at hok
  split at hok
  · cases hok
  · split at hok
    · obtain ⟨hr, hL1⟩ := finishrect_ok _ _ _ _ _ _ _ hok
      subst hr; subst hL1; rfl
    · obtain ⟨hr, hL1⟩ := finishrect_ok _ _ _ _ _ _ _ hok
      subst hr; subst hL1; rfl

/-- A successful run of `n` requests appends exactly the `n` returned
rectangles, in order. -/
theorem runReqs_rects (reqs : List (Int × Int)) :
    ∀ (L : ImageLayout) (rs : List PackRect) (L2 : ImageLayout),
    L.runReqs reqs = Except.ok (rs, L2) →
    L2.rects = L.rects ++ rs ∧ rs.length = reqs.length := by
  induction reqs with
  | nil =>
    intro L rs L2 hok
    unfold ImageLayout.runReqs at hok
    cases hok
    exact ⟨(List.append_nil _).symm, rfl⟩
  | cons p rest ih =>
    intro L rs L2 hok
    obtain ⟨w, h⟩ := p
    unfold ImageLayout.runReqs at hok
    split at hok
    · cases hok
    next r L1 hget =>
      split at hok
      · cases hok
      next rs1 L2a hrun =>
        cases hok
        obtain ⟨h1, h2⟩ := ih L1 rs1 L2 hrun
        refine ⟨?_, by simp [h2]⟩
        rw [h1, getrect_rects L w h r L1 hget, List.append_assoc]
        rfl

/-- C1: for every sequence of rectangle requests (each with non-negative width
and height, and width at most the atlas width minus twice the margin) made to
a packer initialised with a fixed atlas width and margin (auto height), the
returned placements are pairwise non-overlapping and every returned placement
lies within `[0, atlasWidth] x [0, atlasHeight]` of the final size reported by
`getsize`. -/
theorem C1_rectpacker_no_overlap_in_bounds
    (W m : Int) (reqs : List (Int × Int)) (hm : 0 ≤ m)
    (hreqs : ∀ p ∈ reqs, 0 ≤ p.1 ∧ p.1 ≤ W - 2 * m ∧ 0 ≤ p.2)
    (rs : List PackRect) (L2 : ImageLayout)
    (hok : (ImageLayout.mkinit m W none).runReqs reqs = Except.ok (rs, L2)) :
    List.Pairwise (fun a b => ¬ rectsOverlap a b) rs ∧
      ∀ r ∈ rs, rectInBounds L2.getsize.1 L2.getsize.2 r := by
  obtain ⟨hinv, hW, hH, hM, _, hrs⟩ :=
    layoutInv_runReqs reqs (ImageLayout.mkinit m W none)
      (layoutInv_mkinit m W none hm) hreqs rs L2 hok
  obtain ⟨_, _, _, _, hbounds, hpw⟩ := hinv
  have hrects : L2.rects = rs := by
    rw [hrs]; rfl
  have hsize : L2.getsize = (L2.width, L2.ymax) := by
    unfold ImageLayout.getsize ImageLayout.heightTruthy
    rw [hH]
    rfl
  constructor
  · rw [← hrects]; exact hpw
  · intro r hr
    rw [hsize]
    exact (hbounds r (by rw [hrects]; exact hr)).1

/-- Witness for C1 at a concrete input: three requests into a 512-wide,
margin-3 packer. -/
theorem C1_rectpacker_no_overlap_in_bounds_witness :
    List.Pairwise (fun a b => ¬ rectsOverlap a b)
      [(⟨3, 3, 509, 103⟩ : PackRect), ⟨3, 106, 23, 136⟩, ⟨26, 106, 426, 156⟩] ∧
      ∀ r ∈ [(⟨3, 3, 509, 103⟩ : PackRect), ⟨3, 106, 23, 136⟩, ⟨26, 106, 426, 156⟩],
        rectInBounds
          (ImageLayout.mk 512 none 3 426 103 156
            [⟨3, 3, 509, 103⟩, ⟨3, 106, 23, 136⟩, ⟨26, 106, 426, 156⟩]).getsize.1
          (ImageLayout.mk 512 none 3 426 103 156
            [⟨3, 3, 509, 103⟩, ⟨3, 106, 23, 136⟩, ⟨26, 106, 426, 156⟩]).getsize.2 r :=
  C1_rectpacker_no_overlap_in_bounds 512 3 [(506, 100), (20, 30), (400, 50)]
    (by decide) (by decide) _ _ rfl

/-! ## `nextpowerof2` (impostormaker.py lines 96-105) and the build pipeline

`nextpowerof2(n, maxval)` doubles `x` from 1 while `x < n`, raising only when
the *current* `x` already exceeds `maxval` at the top of the loop.  The model
uses fuel-based structural recursion; fuel `n.toNat` strictly bounds the loop
count (x doubles from 1, so at most log2(n)+1 <= n.toNat iterations when
n >= 1, and zero iterations when n <= 1), so the fuel-exhausted branch is
never reached. -/

def nextpowerof2go (n maxval : Int) : Int → Nat → Except String Int
  | x, 0 => Except.ok x
  | x, fuel + 1 =>
    if x < n then
      if x > maxval then
        Except.error "Image size is too large"
      else
        nextpowerof2go n maxval (2 * x) fuel
    else
      Except.ok x

def nextpowerof2 (n maxval : Int) : Except String Int :=
  nextpowerof2go n maxval 1 n.toNat

def exceptIsErr {α : Type} : Except String α → Bool
  | Except.error _ => true
  | Except.ok _ => false

/-- `ImpostorMaker.MAXIMAGEDIM` (line 514): the Second Life texture size
limit, per its comment no impostor texture should be this big. -/
def MAXIMAGEDIM : Int := 1024

/-! State visible to the `buildcomposite` pipeline (lines 631-653): the
target's `hide_render` flag toggled by `setnorender`, the log of render calls
(recording the hidden flag at the moment of each render), and the rectangles
used for the pixel pastes and for the UV assignments.  Faces are abstracted to
their pixel (width, height) request; the external renderer is an oracle
`renderOk` giving each face render's outcome. -/

structure BuildState where
  hidden : Bool
  renderLog : List Bool
  pastes : List PackRect
  uvs : List PackRect
deriving DecidableEq, Repr

def initBuildState : BuildState := ⟨false, [], [], []⟩

/-- Per-face render-and-paste loop of `compositefaces` (lines 705-719): for
face `i`, a render call is made (logged together with the hidden flag at that
moment); on success the rendered image is pasted into `rects[i]`; a render
failure raises, aborting the loop with the state as accumulated so far.
The source indexes `faces[i]` and `rects[i]` over `range(len(faces))`; the
lists have equal length on every reachable path (`runReqs_rects`), so the
zipped traversal is the same iteration. -/
def renderpasteloop (renderOk : Nat → Bool) :
    List ((Int × Int) × PackRect) → Nat → BuildState → BuildState × Except String Unit
  | [], _, st => (st, Except.ok ())
  | (_, r) :: rest, i, st =>
    let st1 : BuildState := { st with renderLog := st.renderLog ++ [st.hidden] }
    if renderOk i then
      renderpasteloop renderOk rest (i + 1) { st1 with pastes := st1.pastes ++ [r] }
    else
      (st1, Except.error "Render failed")

/-- `compositefaces` (lines 691-725): raises if the scene has no camera,
before any per-face render; otherwise runs the per-face loop. -/
def compositefaces (cameraPresent : Bool) (renderOk : Nat → Bool)
    (faces : List (Int × Int)) (rects : List PackRect) (st : BuildState) :
    BuildState × Except String Unit :=
  if cameraPresent then
    renderpasteloop renderOk (faces.zip rects) 0 st
  else
    (st, Except.error "No camera in the scene. Please add one.")

/-- `adduvlayer` (lines 655-675): `for face, rect in zip(faces, rects)`, each
face's UVs are set into its rectangle. -/
def adduvlayer (faces : List (Int × Int)) (rects : List PackRect) (st : BuildState) :
    BuildState :=
  { st with uvs := st.uvs ++ (faces.zip rects).map (fun p => p.2) }

/-- `buildcomposite(target, faces, width, margin)` (lines 631-653):
pass 1 layout with auto height, `nextpowerof2` sizing, pass 2 layout with the
rounded height, `setnorender(target, True)`, `compositefaces`,
`setnorender(target, False)`, `adduvlayer`.  There is no try/finally around
the render phase, so an exception raised inside `compositefaces` propagates
with the second `setnorender` never executed.  Faces enter this model as
their pixel sizes (the sorted-face float-to-pixel conversion of
`layoutcomposite`/`calcscalefactor` is upstream). -/
def buildcomposite (cameraPresent : Bool) (renderOk : Nat → Bool)
    (faces : List (Int × Int)) (width margin : Int) (st : BuildState) :
    BuildState × Except String Unit :=
  match (ImageLayout.mkinit margin width none).runReqs faces with
  | Except.error e => (st, Except.error e)
  | Except.ok (_, layout1) =>
    match nextpowerof2 layout1.getsize.2 MAXIMAGEDIM with
    | Except.error e => (st, Except.error e)
    | Except.ok p2 =>
      match (ImageLayout.mkinit margin width (some p2)).runReqs faces with
      | Except.error e => (st, Except.error e)
      | Except.ok (_, layout2) =>
        match compositefaces cameraPresent renderOk faces layout2.rects
            { st with hidden := true } with
        | (st2, Except.error e) => (st2, Except.error e)
        | (st2, Except.ok _) =>
          (adduvlayer faces layout2.rects { st2 with hidden := false }, Except.ok ())

/-- Behaviour of the render loop: the hidden flag and the UV list are never
changed by it, every log entry it appends records the hidden flag it started
with, and on success it pastes exactly the given rectangles in order. -/
theorem renderpasteloop_spec (renderOk : Nat → Bool)
    (l : List ((Int × Int) × PackRect)) :
    ∀ (i : Nat) (st st2 : BuildState) (res : Except String Unit),
    renderpasteloop renderOk l i st = (st2, res) →
    st2.hidden = st.hidden ∧ st2.uvs = st.uvs ∧
      (∀ b ∈ st2.renderLog, b ∈ st.renderLog ∨ b = st.hidden) ∧
      (res = Except.ok () → st2.pastes = st.pastes ++ l.map (fun p => p.2)) := by
  induction l with
  | nil =>
    intro i st st2 res hok
    cases hok
    exact ⟨rfl, rfl, fun b hb => Or.inl hb, fun _ => (List.append_nil _).symm⟩
  | cons p rest ih =>
    intro i st st2 res hok
    obtain ⟨f, r⟩ := p
    unfold renderpasteloop at hok
    by_cases hro : renderOk i
    · rw [if_pos hro] at hok
      obtain ⟨h1, h2, h3, h4⟩ := ih (i + 1) _ st2 res hok
      refine ⟨h1, h2, ?_, ?_⟩
      · intro b hb
        rcases h3 b hb with hb2 | hb2
        · dsimp at hb2
          rcases List.mem_append.mp hb2 with hb3 | hb3
          · exact Or.inl hb3
          · rw [List.mem_singleton] at hb3
            exact Or.inr hb3
        · exact Or.inr hb2
      · intro hres
        have := h4 hres
        dsimp at this
        rw [this, List.append_assoc]
        rfl
    · rw [if_neg hro] at hok
      cases hok
      refine ⟨rfl, rfl, ?_, ?_⟩
      · intro b hb
        dsimp at hb
        rcases List.mem_append.mp hb with hb2 | hb2
        · exact Or.inl hb2
        · rw [List.mem_singleton] at hb2
          exact Or.inr hb2
      · intro hres
        cases hres

/-- C2 (code bug): the spec says a pass-1 atlas height above the maximum
texture dimension (1024) must fail with a LayoutError before any render call.
With a single face needing a 100 x 1022 rectangle, the pass-1 layout height is
1025 > 1024, yet `nextpowerof2(1025, 1024)` does not raise (its guard `x >
maxval` is tested before doubling, so x = 1024 passes and 2048 is returned),
and the build proceeds to make a render call and complete.  This contradicts
the stated 1024 texture size limit of `MAXIMAGEDIM`. -/
theorem C2_overheight_pass1_renders_anyway :
    (((ImageLayout.mkinit 3 512 none).runReqs [(100, 1022)]).map
        (fun p => p.2.getsize.2)) = Except.ok 1025 ∧
    MAXIMAGEDIM < 1025 ∧
    nextpowerof2 1025 MAXIMAGEDIM = Except.ok 2048 ∧
    buildcomposite true (fun _ => true) [(100, 1022)] 512 3 initBuildState =
      (⟨false, [true], [⟨3, 3, 103, 1025⟩], [⟨3, 3, 103, 1025⟩]⟩, Except.ok ()) :=
  ⟨rfl, by decide, rfl, rfl⟩

/-- C9 counterexample: when the render of the (single) face fails, the build
aborts with the target still hidden (`hide_render` left `True`), because
`buildcomposite` has no try/finally around the render phase; the claim that
visibility is restored on every failure path is false. -/
theorem C9_counterexample_failure_leaves_target_hidden :
    (buildcomposite true (fun _ => false) [(10, 10)] 512 3 initBuildState).1.hidden = true ∧
    exceptIsErr (buildcomposite true (fun _ => false) [(10, 10)] 512 3 initBuildState).2
      = true :=
  ⟨rfl, rfl⟩

/-- C9 (amended): the target is hidden before the per-face render captures and
every render call happens while it is hidden, and it is restored to visible on
the success path; on a failure inside the render/composite phase the target is
left hidden. -/
theorem C9_amended_hidden_during_renders_restored_on_success
    (cameraPresent : Bool) (renderOk : Nat → Bool) (faces : List (Int × Int))
    (width margin : Int) (st2 : BuildState)
    (hok : buildcomposite cameraPresent renderOk faces width margin initBuildState =
      (st2, Except.ok ())) :
    st2.hidden = false ∧ ∀ b ∈ st2.renderLog, b = true := by
  unfold buildcomposite at hok
  split at hok
  · simp at hok
  next rs1 layout1 hrun1 =>
    split at hok
    · simp at hok
    next p2 hp2 =>
      split at hok
      · simp at hok
      next rs2 layout2 hrun2 =>
        split at hok
        · simp at hok
        next st2a u hcf =>
          have hst2 : st2 = adduvlayer faces layout2.rects { st2a with hidden := false } := by
            have := congrArg Prod.fst hok
            dsimp at this
            exact this.symm
          subst hst2
          unfold compositefaces at hcf
          split at hcf
          · obtain ⟨hh, hu, hlog, _⟩ :=
              renderpasteloop_spec renderOk (faces.zip layout2.rects) 0
                { initBuildState with hidden := true } st2a (Except.ok u) hcf
            refine ⟨rfl, ?_⟩
            intro b hb
            have hb2 : b ∈ st2a.renderLog := hb
            rcases hlog b hb2 with hb3 | hb3
            · cases hb3
            · exact hb3
          · simp at hcf

/-- Witness for the amended C9 at a concrete input: a successful one-face
build ends visible with its single render made while hidden. -/
theorem C9_amended_witness :
    (⟨false, [true], [⟨3, 3, 13, 13⟩], [⟨3, 3, 13, 13⟩]⟩ : BuildState).hidden = false ∧
    ∀ b ∈ (⟨false, [true], [⟨3, 3, 13, 13⟩], [⟨3, 3, 13, 13⟩]⟩ : BuildState).renderLog,
      b = true :=
  C9_amended_hidden_during_renders_restored_on_success
    true (fun _ => true) [(10, 10)] 512 3 _ rfl

/-- C10: after a sequence of n successful rectangle requests, the layout's
rectangle list is exactly the n returned rectangles in order; consequently,
since compositing and UV assignment iterate the same face list against the
same layout's `getrects()`, a successful build pastes each face's pixels into
exactly the rectangle its UVs are mapped to. -/
theorem C10_rects_list_and_paste_uv_agreement :
    (∀ (margin width : Int) (hh : Option Int) (reqs : List (Int × Int))
        (rs : List PackRect) (L2 : ImageLayout),
        (ImageLayout.mkinit margin width hh).runReqs reqs = Except.ok (rs, L2) →
        L2.rects = rs ∧ rs.length = reqs.length) ∧
    (∀ (cameraPresent : Bool) (renderOk : Nat → Bool) (faces : List (Int × Int))
        (width margin : Int) (st2 : BuildState),
        buildcomposite cameraPresent renderOk faces width margin initBuildState =
          (st2, Except.ok ()) →
        st2.pastes = st2.uvs) := by
  constructor
  · intro margin width hh reqs rs L2 hok
    obtain ⟨h1, h2⟩ := runReqs_rects reqs _ rs L2 hok
    exact ⟨by rw [h1]; rfl, h2⟩
  · intro cameraPresent renderOk faces width margin st2 hok
    unfold buildcomposite at hok
    split at hok
    · simp at hok
    next rs1 layout1 hrun1 =>
      split at hok
      · simp at hok
      next p2 hp2 =>
        split at hok
        · simp at hok
        next rs2 layout2 hrun2 =>
          split at hok
          · simp at hok
          next st2a u hcf =>
            have hst2 : st2 = adduvlayer faces layout2.rects { st2a with hidden := false } := by
              have := congrArg Prod.fst hok
              dsimp at this
              exact this.symm
            subst hst2
            unfold compositefaces at hcf
            split at hcf
            · obtain ⟨hh2, hu, hlog, hpastes⟩ :=
                renderpasteloop_spec renderOk (faces.zip layout2.rects) 0
                  { initBuildState with hidden := true } st2a (Except.ok u) hcf
              unfold adduvlayer
              dsimp
              rw [hpastes rfl, hu]
              rfl
            · simp at hcf

/-- Witness for C10 at a concrete input: a two-request run and a successful
two-face build. -/
theorem C10_rects_list_and_paste_uv_agreement_witness :
    ((ImageLayout.mk 512 (some 64) 3 96 0 63
        [⟨3, 3, 53, 63⟩, ⟨56, 3, 96, 23⟩]).rects =
          [(⟨3, 3, 53, 63⟩ : PackRect), ⟨56, 3, 96, 23⟩] ∧
      ([(⟨3, 3, 53, 63⟩ : PackRect), ⟨56, 3, 96, 23⟩]).length =
        ([((50 : Int), (60 : Int)), (40, 20)]).length) ∧
    (⟨false, [true, true], [⟨3, 3, 53, 63⟩, ⟨56, 3, 96, 23⟩],
        [⟨3, 3, 53, 63⟩, ⟨56, 3, 96, 23⟩]⟩ : BuildState).pastes =
      (⟨false, [true, true], [⟨3, 3, 53, 63⟩, ⟨56, 3, 96, 23⟩],
        [⟨3, 3, 53, 63⟩, ⟨56, 3, 96, 23⟩]⟩ : BuildState).uvs :=
  ⟨C10_rects_list_and_paste_uv_agreement.1 3 512 (some 64) [(50, 60), (40, 20)] _ _ rfl,
    C10_rects_list_and_paste_uv_agreement.2 true (fun _ => true) [(50, 60), (40, 20)]
      512 3 _ rfl⟩

/-! ## `ImageComposite` and `paste` (impostormaker.py lines 141-189)

The pixel buffer is a flat row-major list, 4 channels per pixel.  The pixel
element type is abstract (`α`), since `paste` only copies values.  Python
slice reads `l[a:b]` and writes `l[a:b] = src` are modelled for the
non-negative, length-matching index ranges that occur in `paste`
(Python clamps b past the end; `take` does the same). -/

structure PyImage (α : Type) where
  width : Int
  height : Int
  pixels : List α
deriving DecidableEq, Repr

def CHANNELS : Int := 4

def pyslice {α : Type} (l : List α) (a b : Int) : List α :=
  (l.drop a.toNat).take (b - a).toNat

def pysetslice {α : Type} (l : List α) (a b : Int) (src : List α) : List α :=
  l.take a.toNat ++ src ++ l.drop (max a.toNat b.toNat)

/-- The row-by-row copy of the general path (lines 181-189):
`for offset in range(0, inh*stride, stride)` performs `inh` iterations when
`stride > 0` (always true on the general path, where `outw >= 1`), row `j`
copying `rowlen` entries from source offset `j*rowlen` to destination offset
`outpos + j*stride`. -/
def pasterows {α : Type} (dstpx srcpx : List α) (outpos stride rowlen : Int)
    (rows : Nat) : List α :=
  (List.range rows).foldl
    (fun acc j =>
      pysetslice acc (outpos + (j : Int) * stride) (outpos + (j : Int) * stride + rowlen)
        (pyslice srcpx ((j : Int) * rowlen) ((j : Int) * rowlen + rowlen)))
    dstpx

/-- The bounds test of `paste` (lines 170-171), in source order. -/
def pasteOutOfBounds {α : Type} (dst img : PyImage α) (x y : Int) : Prop :=
  img.width + x > dst.width ∨ img.height + y > dst.height ∨ x < 0 ∨ y < 0

instance {α : Type} (dst img : PyImage α) (x y : Int) :
    Decidable (pasteOutOfBounds dst img x y) := by
  unfold pasteOutOfBounds; infer_instance

/-- `ImageComposite.paste(img, x, y)` (lines 164-189).  On the fast path
(`x == 0 and inw == outw`, line 175) the source evaluates
`ImageComposite.ImageComposite.CHANNELS` (line 177); the class has no
attribute named after itself, so Python raises AttributeError there, before
the slice assignment of line 179 — the model returns that error.  The general
path copies row by row. -/
def paste {α : Type} (dst img : PyImage α) (x y : Int) : Except String (PyImage α) :=
  if pasteOutOfBounds dst img x y then
    Except.error "Image paste will not fit"
  else if x = 0 ∧ img.width = dst.width then
    Except.error "AttributeError: type object ImageComposite has no attribute ImageComposite"
  else
    Except.ok { dst with pixels :=
      (pasterows dst.pixels img.pixels ((x + y * dst.width) * CHANNELS)
        (dst.width * CHANNELS) (img.width * CHANNELS) img.height.toNat) }

/-- C3 (code bug): the claim says `paste` raises exactly on a bounds
violation.  The out-of-bounds direction holds (left conjuncts: a paste at
x = -1 trips the bounds test and raises before touching any pixel), but an
in-bounds paste of a full-width source at column 0 also raises — the
AttributeError typo of line 177 — so "exactly" fails. -/
theorem C3_paste_bounds_check_and_fastpath_error :
    pasteOutOfBounds (PyImage.mk 2 2 (List.replicate 16 (0 : Nat)))
      (PyImage.mk 2 1 (List.replicate 8 (1 : Nat))) (-1) 0 ∧
    paste (PyImage.mk 2 2 (List.replicate 16 (0 : Nat)))
      (PyImage.mk 2 1 (List.replicate 8 (1 : Nat))) (-1) 0 =
        Except.error "Image paste will not fit" ∧
    ¬ pasteOutOfBounds (PyImage.mk 2 2 (List.replicate 16 (0 : Nat)))
      (PyImage.mk 2 1 (List.replicate 8 (1 : Nat))) 0 0 ∧
    paste (PyImage.mk 2 2 (List.replicate 16 (0 : Nat)))
      (PyImage.mk 2 1 (List.replicate 8 (1 : Nat))) 0 0 =
        Except.error "AttributeError: type object ImageComposite has no attribute ImageComposite" :=
  ⟨by decide, rfl, by decide, rfl⟩

/-- C4 (code bug): the claim says a full-row-width paste at column 0 copies
the whole source block in one slice operation.  In-bounds full-width pastes
instead raise AttributeError (line 177 names `ImageComposite.ImageComposite`);
the general path (last conjunct: a 1 x 1 source pasted at (1,1) of a 2 x 2
atlas) does copy its pixels row by row to the correct offsets. -/
theorem C4_paste_fastpath_raises_generalpath_copies :
    ¬ pasteOutOfBounds (PyImage.mk 3 4 (List.replicate 48 (0 : Nat)))
      (PyImage.mk 3 2 (List.replicate 24 (5 : Nat))) 0 1 ∧
    paste (PyImage.mk 3 4 (List.replicate 48 (0 : Nat)))
      (PyImage.mk 3 2 (List.replicate 24 (5 : Nat))) 0 1 =
        Except.error "AttributeError: type object ImageComposite has no attribute ImageComposite" ∧
    paste (PyImage.mk 2 2 (List.replicate 16 (0 : Nat)))
      (PyImage.mk 1 1 [9, 9, 9, 9]) 1 1 =
        Except.ok (PyImage.mk 2 2 (List.replicate 12 (0 : Nat) ++ [9, 9, 9, 9])) :=
  ⟨by decide, rfl, rfl⟩

/-! ## `ImpostorMaker.execute` input checks (impostormaker.py lines 520-553)

A Blender object is abstracted to the fields the checks read: its type
string, its scale triple (floats, modelled as rationals) and the vertex
count of each of its mesh polygons. -/

def DRAWABLE : List String :=
  ["MESH", "CURVE", "SURFACE", "META", "FONT", "ARMATURE", "LATTICE"]

structure BObject where
  oname : String
  otype : String
  scale : ℚ × ℚ × ℚ
  polyvertcounts : List Nat
deriving DecidableEq, Repr

/-- `counttriangles(obj)` (lines 135-139): `sum(len(face.vertices)-2 ...)`. -/
def counttriangles (o : BObject) : Int :=
  (o.polyvertcounts.map (fun v => (v : Int) - 2)).sum

structure BContext where
  selected_objects : List BObject
  visible_objects : List BObject
deriving DecidableEq, Repr

/-- The source list computed by `execute` (lines 539-542): all selected but
the last, falling back to the visible objects other than the target, then
filtered to drawable types. -/
def sourcesOf (ctx : BContext) : List BObject :=
  match ctx.selected_objects with
  | [] => []
  | target :: _ =>
    let sources0 := ctx.selected_objects.dropLast
    let sources1 :=
      if sources0.isEmpty then ctx.visible_objects.filter (fun o => o != target)
      else sources0
    sources1.filter (fun o => DRAWABLE.contains o.otype)

inductive ExecStatus where
  | cancelled (msg : String)
  | finished
deriving DecidableEq, Repr

/-- `ImpostorMaker.execute(context)` (lines 520-553).  Returns the operator
status and whether `buildimpostor` — the geometry phase, where every mesh
mutation happens, starting with `limiteddissolve` — was invoked.  Every
`CANCELLED` return precedes that call. -/
def execute (ctx : BContext) : ExecStatus × Bool :=
  match ctx.selected_objects with
  | [] => (ExecStatus.cancelled "Nothing selected.", false)
  | target :: _ =>
    if target.otype ≠ "MESH" then
      (ExecStatus.cancelled "Impostor must be a mesh.", false)
    else if target.scale.1 < 0 ∨ target.scale.2.1 < 0 ∨ target.scale.2.2 < 0 then
      (ExecStatus.cancelled "Impostor has a negative scale.", false)
    else if (sourcesOf ctx).isEmpty then
      (ExecStatus.cancelled "No drawable objects to draw on the impostor.", false)
    else if counttriangles target > ((sourcesOf ctx).map counttriangles).sum then
      (ExecStatus.cancelled "The impostor has more triangles than the input objects.", false)
    else
      (ExecStatus.finished, true)

/-- C8: each input precondition (something selected; target is a mesh;
target scale non-negative per axis; target triangle count, as
`sum(len(verts)-2)`, not exceeding the combined source triangle count) is
checked before any geometry work: a violation yields a fail-fast cancelled
status with `buildimpostor` never invoked, hence no mesh mutation. -/
theorem C8_preconditions_fail_fast (ctx : BContext)
    (hviol : ctx.selected_objects = [] ∨
      ∃ target rest, ctx.selected_objects = target :: rest ∧
        (target.otype ≠ "MESH" ∨ target.scale.1 < 0 ∨ target.scale.2.1 < 0 ∨
          target.scale.2.2 < 0 ∨
          counttriangles target > ((sourcesOf ctx).map counttriangles).sum)) :
    (∃ msg, (execute ctx).1 = ExecStatus.cancelled msg) ∧ (execute ctx).2 = false := by
  rcases hviol with hsel | ⟨target, rest, hsel, hcond⟩
  · unfold execute
    rw [hsel]
    exact ⟨⟨"Nothing selected.", rfl⟩, rfl⟩
  · unfold execute
    rw [hsel]
    dsimp only
    by_cases h1 : target.otype ≠ "MESH"
    · rw [if_pos h1]
      exact ⟨⟨_, rfl⟩, rfl⟩
    · rw [if_neg h1]
      by_cases h2 : target.scale.1 < 0 ∨ target.scale.2.1 < 0 ∨ target.scale.2.2 < 0
      · rw [if_pos h2]
        exact ⟨⟨_, rfl⟩, rfl⟩
      · rw [if_neg h2]
        by_cases h3 : (sourcesOf ctx).isEmpty
        · rw [if_pos h3]
          exact ⟨⟨_, rfl⟩, rfl⟩
        · rw [if_neg h3]
          have h4 : counttriangles target > ((sourcesOf ctx).map counttriangles).sum := by
            rcases hcond with hc | hc | hc | hc | hc
            · exact absurd hc h1
            · exact absurd (Or.inl hc) h2
            · exact absurd (Or.inr (Or.inl hc)) h2
            · exact absurd (Or.inr (Or.inr hc)) h2
            · exact hc
          rw [if_pos h4]
          exact ⟨⟨_, rfl⟩, rfl⟩

/-- Witness for C8 at a concrete input: an empty selection is cancelled with
no build invoked. -/
theorem C8_preconditions_fail_fast_witness :
    (∃ msg, (execute (BContext.mk [] [])).1 = ExecStatus.cancelled msg) ∧
      (execute (BContext.mk [] [])).2 = false :=
  C8_preconditions_fail_fast (BContext.mk [] []) (Or.inl rfl)

/-! ## Face geometry: the `ImpostorFace.__init__` normal and base-edge scan
(impostormaker.py lines 264-326)

Vectors are over exact rationals.  The source's float comparisons on vector
*lengths* are rephrased on *squared* lengths, which is equivalent in exact
arithmetic for non-negative operands:
* `cross.length < NORMALERROR`  becomes  `sqlen cross < NORMALERROR ^ 2`;
* `edgelength > baseedgelength` becomes the same comparison on squares
  (`baseedgelength` starts at `-inf`, modelled by `Option`);
* `abs(normal.dot(cross)) < 1 - NORMALERROR` — the source normalises both
  vectors first — becomes
  `(dot n c) ^ 2 < (1 - NORMALERROR) ^ 2 * sqlen n * sqlen c`
  on the unnormalised vectors, the square of the same inequality.
The stored normal is kept unnormalised (the source normalises it; only its
direction is ever used, and `dotfail` is scale-invariant). -/

structure Vec3 where
  x : ℚ
  y : ℚ
  z : ℚ
deriving DecidableEq, Repr

def Vec3.add (a b : Vec3) : Vec3 := ⟨a.x + b.x, a.y + b.y, a.z + b.z⟩

def Vec3.sub (a b : Vec3) : Vec3 := ⟨a.x - b.x, a.y - b.y, a.z - b.z⟩

def Vec3.smul (c : ℚ) (a : Vec3) : Vec3 := ⟨c * a.x, c * a.y, c * a.z⟩

def Vec3.dot (a b : Vec3) : ℚ := a.x * b.x + a.y * b.y + a.z * b.z

def Vec3.cross (a b : Vec3) : Vec3 :=
  ⟨a.y * b.z - a.z * b.y, a.z * b.x - a.x * b.z, a.x * b.y - a.y * b.x⟩

def Vec3.sqlen (a : Vec3) : ℚ := a.dot a

/-- `vecmult(v0, v1)` (lines 90-94): element-by-element multiply, used to
apply the object scale to each vertex. -/
def vecmult (s v : Vec3) : Vec3 := ⟨s.x * v.x, s.y * v.y, s.z * v.z⟩

/-- `NORMALERROR` (line 24). -/
def NORMALERROR : ℚ := 1 / 1000

/-- The three scaled vertices of loop iteration `i` (lines 288-296):
`meloop[i]`, `meloop[(i+1) % loop_total]`, `meloop[(i+2) % loop_total]`,
each scale-multiplied. -/
def v0at (scale : Vec3) (verts : List Vec3) (i : Nat) : Vec3 :=
  vecmult scale (verts.getD i ⟨0, 0, 0⟩)

def v1at (scale : Vec3) (verts : List Vec3) (i : Nat) : Vec3 :=
  vecmult scale (verts.getD ((i + 1) % verts.length) ⟨0, 0, 0⟩)

def v2at (scale : Vec3) (verts : List Vec3) (i : Nat) : Vec3 :=
  vecmult scale (verts.getD ((i + 2) % verts.length) ⟨0, 0, 0⟩)

/-- `cross = (v1-v0).cross(v2-v1)` of iteration `i` (line 300). -/
def crossat (scale : Vec3) (verts : List Vec3) (i : Nat) : Vec3 :=
  Vec3.cross (Vec3.sub (v1at scale verts i) (v0at scale verts i))
    (Vec3.sub (v2at scale verts i) (v1at scale verts i))

/-- Squared length of the edge `(v0, v1)` of iteration `i` (lines 313-314). -/
def edgesqat (scale : Vec3) (verts : List Vec3) (i : Nat) : ℚ :=
  Vec3.sqlen (Vec3.sub (v1at scale verts i) (v0at scale verts i))

/-- Iteration `i` passes the collinearity skip of line 302
(`cross.length < NORMALERROR` continues the loop). -/
def validat (scale : Vec3) (verts : List Vec3) (i : Nat) : Prop :=
  ¬ (Vec3.sqlen (crossat scale verts i) < NORMALERROR ^ 2)

instance (scale : Vec3) (verts : List Vec3) (i : Nat) :
    Decidable (validat scale verts i) := by
  unfold validat; infer_instance

/-- The flatness rejection test of line 307, squared (see section comment). -/
def dotfail (n c : Vec3) : Prop :=
  (Vec3.dot n c) ^ 2 < (1 - NORMALERROR) ^ 2 * Vec3.sqlen n * Vec3.sqlen c

instance (n c : Vec3) : Decidable (dotfail n c) := by
  unfold dotfail; infer_instance

/-- Loop state of the scan: `self.normal`, the base edge with its squared
length (the source keeps the endpoints in `self.baseedge` and the length in
the local `baseedgelength`, initialised to `-math.inf`; `none` models the
not-yet-set state of both), and the running vertex sum for `self.center`.
The source adds `v0` to the centre sum only on iterations that pass the
collinearity skip (lines 318-322 sit after the `continue`). -/
structure FaceScan where
  normal : Option Vec3
  base : Option (Vec3 × Vec3 × ℚ)
  center : Option Vec3
deriving DecidableEq, Repr

def initFaceScan : FaceScan := ⟨none, none, none⟩

/-- Base-edge update (lines 313-317): replace on strictly greater length. -/
def updbase (b : Option (Vec3 × Vec3 × ℚ)) (v0 v1 : Vec3) :
    Option (Vec3 × Vec3 × ℚ) :=
  match b with
  | none => some (v0, v1, Vec3.sqlen (Vec3.sub v1 v0))
  | some m =>
    if Vec3.sqlen (Vec3.sub v1 v0) > m.2.2 then
      some (v0, v1, Vec3.sqlen (Vec3.sub v1 v0))
    else
      some m

/-- Centre accumulation (lines 318-322). -/
def updcenter (c : Option Vec3) (v0 : Vec3) : Option Vec3 :=
  match c with
  | none => some v0
  | some cc => some (Vec3.add cc v0)

/-- One loop iteration (lines 287-322): skip on a near-zero cross product;
otherwise reject a cross product disagreeing with the stored normal, or store
the first one; then update base edge and centre sum. -/
def scanstep (scale : Vec3) (verts : List Vec3) (i : Nat) (st : FaceScan) :
    Except String FaceScan :=
  if Vec3.sqlen (crossat scale verts i) < NORMALERROR ^ 2 then
    Except.ok st
  else
    match st.normal with
    | some nv =>
      if dotfail nv (crossat scale verts i) then
        Except.error "A face of the target is not flat."
      else
        Except.ok ⟨some nv, updbase st.base (v0at scale verts i) (v1at scale verts i),
          updcenter st.center (v0at scale verts i)⟩
    | none =>
      Except.ok ⟨some (crossat scale verts i),
        updbase st.base (v0at scale verts i) (v1at scale verts i),
        updcenter st.center (v0at scale verts i)⟩

/-- The loop `for loop_index in range(len(meloop))`, expressed as a scan from
index `i` for `cnt` iterations. -/
def scanloop (scale : Vec3) (verts : List Vec3) :
    Nat → Nat → FaceScan → Except String FaceScan
  | _, 0, st => Except.ok st
  | i, cnt + 1, st =>
    match scanstep scale verts i st with
    | Except.error e => Except.error e
    | Except.ok st2 => scanloop scale verts (i + 1) cnt st2

/-- The scan phase of `ImpostorFace.__init__` (lines 280-326): too-few-vertex
rejection, the loop over all loop indices, the no-normal rejection, and the
final division of the centre sum by `poly.loop_total`.  The input is the
loop's vertex positions (mesh coordinates) plus the object scale. -/
def facescan (scale : Vec3) (verts : List Vec3) : Except String FaceScan :=
  if verts.length < 3 then
    Except.error "A face of the target has less than 3 vertices."
  else
    match scanloop scale verts 0 verts.length initFaceScan with
    | Except.error e => Except.error e
    | Except.ok st =>
      match st.normal with
      | none => Except.error "Unable to compute a normal for a face of the target."
      | some _ =>
        Except.ok { st with center := st.center.map (Vec3.smul (1 / (verts.length : ℚ))) }

/-- Scan behaviour from a state whose normal (and base) are already set:
it errors exactly when some later valid iteration fails the flatness test
against that normal, and on success the base edge is the running first
maximum over the valid iterations processed. -/
theorem scanloop_some_spec (scale : Vec3) (verts : List Vec3) :
    ∀ (cnt i : Nat) (st : FaceScan) (nv : Vec3) (m : Vec3 × Vec3 × ℚ),
    st.normal = some nv → st.base = some m →
    ((exceptIsErr (scanloop scale verts i cnt st) = true ↔
      ∃ b, i ≤ b ∧ b < i + cnt ∧ validat scale verts b ∧
        dotfail nv (crossat scale verts b)) ∧
    (∀ st2, scanloop scale verts i cnt st = Except.ok st2 →
      st2.normal = some nv ∧
      ∃ m2, st2.base = some m2 ∧
        (∀ j, i ≤ j → j < i + cnt → validat scale verts j →
          edgesqat scale verts j ≤ m2.2.2) ∧
        (m2 = m ∨
          ∃ k, i ≤ k ∧ k < i + cnt ∧ validat scale verts k ∧
            m2 = (v0at scale verts k, v1at scale verts k, edgesqat scale verts k) ∧
            m.2.2 < edgesqat scale verts k ∧
            (∀ j, i ≤ j → j < k → validat scale verts j →
              edgesqat scale verts j < edgesqat scale verts k)))) := by
  intro cnt
  induction cnt with
  | zero =>
    intro i st nv m hn hb
    constructor
    · constructor
      · intro herr
        simp only [scanloop, exceptIsErr] at herr
        cases herr
      · rintro ⟨b, hb1, hb2, -, -⟩
        omega
    · intro st2 hok2
      simp only [scanloop] at hok2
      cases hok2
      exact ⟨hn, m, hb, fun j hj1 hj2 _ => absurd hj2 (by omega), Or.inl rfl⟩
  | succ cnt ih =>
    intro i st nv m hn hb
    by_cases hv : Vec3.sqlen (crossat scale verts i) < NORMALERROR ^ 2
    · have hss : scanstep scale verts i st = Except.ok st := by
        unfold scanstep
        rw [if_pos hv]
      have hcomb : scanloop scale verts i (cnt + 1) st =
          scanloop scale verts (i + 1) cnt st := by
        simp only [scanloop, hss]
      have hnv : ¬ validat scale verts i := fun hcon => hcon hv
      obtain ⟨ihiff, ihok⟩ := ih (i + 1) st nv m hn hb
      rw [hcomb]
      constructor
      · rw [ihiff]
        constructor
        · rintro ⟨b, h1, h2, h3, h4⟩
          exact ⟨b, by omega, by omega, h3, h4⟩
        · rintro ⟨b, h1, h2, h3, h4⟩
          rcases Nat.eq_or_lt_of_le h1 with heq | hlt
          · exact absurd h3 (heq ▸ hnv)
          · exact ⟨b, by omega, by omega, h3, h4⟩
      · intro st2 hok2
        obtain ⟨h1, m2, h2, h3, h4⟩ := ihok st2 hok2
        refine ⟨h1, m2, h2, ?_, ?_⟩
        · intro j hj1 hj2 hjv
          rcases Nat.eq_or_lt_of_le hj1 with heq | hlt
          · exact absurd hjv (heq ▸ hnv)
          · exact h3 j (by omega) (by omega) hjv
        · rcases h4 with h4 | ⟨k, hk1, hk2, hk3, hk4, hk5, hk6⟩
          · exact Or.inl h4
          · refine Or.inr ⟨k, by omega, by omega, hk3, hk4, hk5, ?_⟩
            intro j hj1 hj2 hjv
            rcases Nat.eq_or_lt_of_le hj1 with heq | hlt
            · exact absurd hjv (heq ▸ hnv)
            · exact hk6 j (by omega) hj2 hjv
    · have hvv : validat scale verts i := hv
      by_cases hd : dotfail nv (crossat scale verts i)
      · have hss : scanstep scale verts i st =
            Except.error "A face of the target is not flat." := by
          unfold scanstep
          rw [if_neg hv, hn]
          dsimp only
          rw [if_pos hd]
        have hcomb : scanloop scale verts i (cnt + 1) st =
            Except.error "A face of the target is not flat." := by
          simp only [scanloop, hss]
        rw [hcomb]
        constructor
        · constructor
          · intro _
            exact ⟨i, le_refl i, by omega, hvv, hd⟩
          · intro _
            rfl
        · intro st2 hok2
          cases hok2
      · have hss : scanstep scale verts i st = Except.ok
            ⟨some nv, updbase st.base (v0at scale verts i) (v1at scale verts i),
              updcenter st.center (v0at scale verts i)⟩ := by
          unfold scanstep
          rw [if_neg hv, hn]
          dsimp only
          rw [if_neg hd]
        have hcomb : scanloop scale verts i (cnt + 1) st =
            scanloop scale verts (i + 1) cnt
              ⟨some nv, updbase st.base (v0at scale verts i) (v1at scale verts i),
                updcenter st.center (v0at scale verts i)⟩ := by
          simp only [scanloop, hss]
        have hub : updbase st.base (v0at scale verts i) (v1at scale verts i) =
            if edgesqat scale verts i > m.2.2 then
              some (v0at scale verts i, v1at scale verts i, edgesqat scale verts i)
            else some m := by
          rw [hb]
          rfl
        by_cases hgt : edgesqat scale verts i > m.2.2
        · rw [if_pos hgt] at hub
          obtain ⟨ihiff, ihok⟩ := ih (i + 1)
            ⟨some nv, updbase st.base (v0at scale verts i) (v1at scale verts i),
              updcenter st.center (v0at scale verts i)⟩ nv
            (v0at scale verts i, v1at scale verts i, edgesqat scale verts i) rfl hub
          rw [hcomb]
          constructor
          · rw [ihiff]
            constructor
            · rintro ⟨b, h1, h2, h3, h4⟩
              exact ⟨b, by omega, by omega, h3, h4⟩
            · rintro ⟨b, h1, h2, h3, h4⟩
              rcases Nat.eq_or_lt_of_le h1 with heq | hlt
              · exact absurd h4 (heq ▸ hd)
              · exact ⟨b, by omega, by omega, h3, h4⟩
          · intro st2 hok2
            obtain ⟨h1, m2, h2, h3, h4⟩ := ihok st2 hok2
            rcases h4 with h4 | ⟨k, hk1, hk2, hk3, hk4, hk5, hk6⟩
            · refine ⟨h1, m2, h2, ?_, Or.inr ⟨i, le_refl i, by omega, hvv, h4, hgt, ?_⟩⟩
              · intro j hj1 hj2 hjv
                rcases Nat.eq_or_lt_of_le hj1 with heq | hlt
                · rw [h4]
                  exact le_of_eq (congrArg (edgesqat scale verts) heq.symm)
                · exact h3 j (by omega) (by omega) hjv
              · intro j hj1 hj2 hjv
                omega
            · have hik : m.2.2 < edgesqat scale verts k := lt_trans hgt hk5
              refine ⟨h1, m2, h2, ?_, Or.inr ⟨k, by omega, by omega, hk3, hk4, hik, ?_⟩⟩
              · intro j hj1 hj2 hjv
                rcases Nat.eq_or_lt_of_le hj1 with heq | hlt
                · rw [hk4]
                  calc edgesqat scale verts j
                      = edgesqat scale verts i := congrArg (edgesqat scale verts) heq.symm
                    _ ≤ edgesqat scale verts k := le_of_lt hk5
                · exact h3 j (by omega) (by omega) hjv
              · intro j hj1 hj2 hjv
                rcases Nat.eq_or_lt_of_le hj1 with heq | hlt
                · exact heq ▸ hk5
                · exact hk6 j (by omega) hj2 hjv
        · rw [if_neg hgt] at hub
          have hle : edgesqat scale verts i ≤ m.2.2 := le_of_not_lt hgt
          obtain ⟨ihiff, ihok⟩ := ih (i + 1)
            ⟨some nv, updbase st.base (v0at scale verts i) (v1at scale verts i),
              updcenter st.center (v0at scale verts i)⟩ nv m rfl hub
          rw [hcomb]
          constructor
          · rw [ihiff]
            constructor
            · rintro ⟨b, h1, h2, h3, h4⟩
              exact ⟨b, by omega, by omega, h3, h4⟩
            · rintro ⟨b, h1, h2, h3, h4⟩
              rcases Nat.eq_or_lt_of_le h1 with heq | hlt
              · exact absurd h4 (heq ▸ hd)
              · exact ⟨b, by omega, by omega, h3, h4⟩
          · intro st2 hok2
            obtain ⟨h1, m2, h2, h3, h4⟩ := ihok st2 hok2
            rcases h4 with h4 | ⟨k, hk1, hk2, hk3, hk4, hk5, hk6⟩
            · refine ⟨h1, m2, h2, ?_, Or.inl h4⟩
              intro j hj1 hj2 hjv
              rcases Nat.eq_or_lt_of_le hj1 with heq | hlt
              · rw [h4]
                calc edgesqat scale verts j
                    = edgesqat scale verts i := congrArg (edgesqat scale verts) heq.symm
                  _ ≤ m.2.2 := hle
              · exact h3 j (by omega) (by omega) hjv
            · refine ⟨h1, m2, h2, ?_, Or.inr ⟨k, by omega, by omega, hk3, hk4, hk5, ?_⟩⟩
              · intro j hj1 hj2 hjv
                rcases Nat.eq_or_lt_of_le hj1 with heq | hlt
                · rw [hk4]
                  calc edgesqat scale verts j
                      = edgesqat scale verts i := congrArg (edgesqat scale verts) heq.symm
                    _ ≤ m.2.2 := hle
                    _ ≤ edgesqat scale verts k := le_of_lt hk5
                · exact h3 j (by omega) (by omega) hjv
              · intro j hj1 hj2 hjv
                rcases Nat.eq_or_lt_of_le hj1 with heq | hlt
                · calc edgesqat scale verts j
                      = edgesqat scale verts i := congrArg (edgesqat scale verts) heq.symm
                    _ ≤ m.2.2 := hle
                    _ < edgesqat scale verts k := hk5
                · exact hk6 j (by omega) hj2 hjv

/-- Scan behaviour from the initial state (no normal yet): it errors exactly
when some valid iteration disagrees with the first valid iteration's cross
product, and on success either no iteration was valid (state unchanged) or
the normal is the first valid cross product and the base edge is the first
maximum-length edge among the valid iterations. -/
theorem scanloop_none_spec (scale : Vec3) (verts : List Vec3) :
    ∀ (cnt i : Nat) (st : FaceScan),
    st.normal = none → st.base = none →
    ((exceptIsErr (scanloop scale verts i cnt st) = true ↔
      ∃ a, i ≤ a ∧ a < i + cnt ∧ validat scale verts a ∧
        (∀ l, i ≤ l → l < a → ¬ validat scale verts l) ∧
        ∃ b, a < b ∧ b < i + cnt ∧ validat scale verts b ∧
          dotfail (crossat scale verts a) (crossat scale verts b)) ∧
    (∀ st2, scanloop scale verts i cnt st = Except.ok st2 →
      ((∀ j, i ≤ j → j < i + cnt → ¬ validat scale verts j) ∧ st2 = st) ∨
      (∃ a, i ≤ a ∧ a < i + cnt ∧ validat scale verts a ∧
        (∀ l, i ≤ l → l < a → ¬ validat scale verts l) ∧
        st2.normal = some (crossat scale verts a) ∧
        ∃ k, i ≤ k ∧ k < i + cnt ∧ validat scale verts k ∧
          st2.base = some (v0at scale verts k, v1at scale verts k,
            edgesqat scale verts k) ∧
          (∀ j, i ≤ j → j < i + cnt → validat scale verts j →
            edgesqat scale verts j ≤ edgesqat scale verts k) ∧
          (∀ j, i ≤ j → j < k → validat scale verts j →
            edgesqat scale verts j < edgesqat scale verts k)))) := by
  intro cnt
  induction cnt with
  | zero =>
    intro i st hn hb
    constructor
    · constructor
      · intro herr
        simp only [scanloop, exceptIsErr] at herr
        cases herr
      · rintro ⟨a, h1, h2, -⟩
        omega
    · intro st2 hok2
      simp only [scanloop] at hok2
      cases hok2
      exact Or.inl ⟨fun j hj1 hj2 => absurd hj2 (by omega), rfl⟩
  | succ cnt ih =>
    intro i st hn hb
    by_cases hv : Vec3.sqlen (crossat scale verts i) < NORMALERROR ^ 2
    · have hss : scanstep scale verts i st = Except.ok st := by
        unfold scanstep
        rw [if_pos hv]
      have hcomb : scanloop scale verts i (cnt + 1) st =
          scanloop scale verts (i + 1) cnt st := by
        simp only [scanloop, hss]
      have hnv : ¬ validat scale verts i := fun hcon => hcon hv
      obtain ⟨ihiff, ihok⟩ := ih (i + 1) st hn hb
      rw [hcomb]
      constructor
      · rw [ihiff]
        constructor
        · rintro ⟨a, h1, h2, h3, h4, b, hb1, hb2, hb3, hb4⟩
          refine ⟨a, by omega, by omega, h3, ?_, b, hb1, by omega, hb3, hb4⟩
          intro l hl1 hl2
          rcases Nat.eq_or_lt_of_le hl1 with heq | hlt
          · exact heq ▸ hnv
          · exact h4 l (by omega) hl2
        · rintro ⟨a, h1, h2, h3, h4, b, hb1, hb2, hb3, hb4⟩
          rcases Nat.eq_or_lt_of_le h1 with heq | hlt
          · exact absurd h3 (heq ▸ hnv)
          · exact ⟨a, by omega, by omega, h3,
              fun l hl1 hl2 => h4 l (by omega) hl2, b, hb1, by omega, hb3, hb4⟩
      · intro st2 hok2
        rcases ihok st2 hok2 with ⟨hnov, hst⟩ | ⟨a, h1, h2, h3, h4, h5, k, hk1, hk2, hk3, hk4, hk5, hk6⟩
        · refine Or.inl ⟨?_, hst⟩
          intro j hj1 hj2
          rcases Nat.eq_or_lt_of_le hj1 with heq | hlt
          · exact heq ▸ hnv
          · exact hnov j (by omega) (by omega)
        · refine Or.inr ⟨a, by omega, by omega, h3, ?_, h5,
            k, by omega, by omega, hk3, hk4, ?_, ?_⟩
          · intro l hl1 hl2
            rcases Nat.eq_or_lt_of_le hl1 with heq | hlt
            · exact heq ▸ hnv
            · exact h4 l (by omega) hl2
          · intro j hj1 hj2 hjv
            rcases Nat.eq_or_lt_of_le hj1 with heq | hlt
            · exact absurd hjv (heq ▸ hnv)
            · exact hk5 j (by omega) (by omega) hjv
          · intro j hj1 hj2 hjv
            rcases Nat.eq_or_lt_of_le hj1 with heq | hlt
            · exact absurd hjv (heq ▸ hnv)
            · exact hk6 j (by omega) hj2 hjv
    · have hvv : validat scale verts i := hv
      have hss : scanstep scale verts i st = Except.ok
          ⟨some (crossat scale verts i),
            updbase st.base (v0at scale verts i) (v1at scale verts i),
            updcenter st.center (v0at scale verts i)⟩ := by
        unfold scanstep
        rw [if_neg hv, hn]
      have hcomb : scanloop scale verts i (cnt + 1) st =
          scanloop scale verts (i + 1) cnt
            ⟨some (crossat scale verts i),
              updbase st.base (v0at scale verts i) (v1at scale verts i),
              updcenter st.center (v0at scale verts i)⟩ := by
        simp only [scanloop, hss]
      have hub : updbase st.base (v0at scale verts i) (v1at scale verts i) =
          some (v0at scale verts i, v1at scale verts i, edgesqat scale verts i) := by
        rw [hb]
        rfl
      obtain ⟨siff, sok⟩ := scanloop_some_spec scale verts cnt (i + 1)
        ⟨some (crossat scale verts i),
          updbase st.base (v0at scale verts i) (v1at scale verts i),
          updcenter st.center (v0at scale verts i)⟩
        (crossat scale verts i)
        (v0at scale verts i, v1at scale verts i, edgesqat scale verts i) rfl hub
      rw [hcomb]
      constructor
      · rw [siff]
        constructor
        · rintro ⟨b, hb1, hb2, hb3, hb4⟩
          exact ⟨i, le_refl i, by omega, hvv,
            fun l hl1 hl2 => absurd hl2 (by omega),
            b, by omega, by omega, hb3, hb4⟩
        · rintro ⟨a, h1, h2, h3, h4, b, hb1, hb2, hb3, hb4⟩
          rcases Nat.eq_or_lt_of_le h1 with heq | hlt
          · exact ⟨b, by omega, by omega, hb3, heq ▸ hb4⟩
          · exact absurd hvv (h4 i (le_refl i) hlt)
      · intro st2 hok2
        obtain ⟨hnormal, m2, hbase, hbound, hdisj⟩ := sok st2 hok2
        rcases hdisj with h4 | ⟨k, hk1, hk2, hk3, hk4, hk5, hk6⟩
        · refine Or.inr ⟨i, le_refl i, by omega, hvv,
            fun l hl1 hl2 => absurd hl2 (by omega), hnormal,
            i, le_refl i, by omega, hvv, by rw [hbase, h4], ?_, ?_⟩
          · intro j hj1 hj2 hjv
            rcases Nat.eq_or_lt_of_le hj1 with heq | hlt
            · exact le_of_eq (congrArg (edgesqat scale verts) heq.symm)
            · have hbj := hbound j (by omega) (by omega) hjv
              rw [h4] at hbj
              exact hbj
          · intro j hj1 hj2 hjv
            omega
        · refine Or.inr ⟨i, le_refl i, by omega, hvv,
            fun l hl1 hl2 => absurd hl2 (by omega), hnormal,
            k, by omega, by omega, hk3, by rw [hbase, hk4], ?_, ?_⟩
          · intro j hj1 hj2 hjv
            rcases Nat.eq_or_lt_of_le hj1 with heq | hlt
            · calc edgesqat scale verts j
                  = edgesqat scale verts i := congrArg (edgesqat scale verts) heq.symm
                _ ≤ edgesqat scale verts k := le_of_lt hk5
            · have hbj := hbound j (by omega) (by omega) hjv
              rw [hk4] at hbj
              exact hbj
          · intro j hj1 hj2 hjv
            rcases Nat.eq_or_lt_of_le hj1 with heq | hlt
            · exact heq ▸ hk5
            · exact hk6 j (by omega) hj2 hjv

/-- A valid cross product never fails the flatness test against itself
(used to align the quantifier forms of the rejection characterisation). -/
theorem not_dotfail_self (c : Vec3) (hc : ¬ (Vec3.sqlen c < NORMALERROR ^ 2)) :
    ¬ dotfail c c := by
  unfold dotfail
  intro hcon
  have hge : NORMALERROR ^ 2 ≤ Vec3.sqlen c := le_of_not_lt hc
  have hpos : (0 : ℚ) < Vec3.sqlen c := by
    have : (0 : ℚ) < NORMALERROR ^ 2 := by norm_num [NORMALERROR]
    linarith
  have hs : Vec3.dot c c = Vec3.sqlen c := rfl
  rw [hs] at hcon
  have hcoef : ((1 : ℚ) - NORMALERROR) ^ 2 < 1 := by norm_num [NORMALERROR]
  nlinarith [sq_nonneg (Vec3.sqlen c), mul_pos hpos hpos]

/-- C6: the face-scan phase of `ImpostorFace.__init__` rejects exactly when
the loop has fewer than 3 vertices, or no consecutive triple yields a cross
product of length at least the tolerance, or some valid cross product fails
the flatness comparison against the first valid (accepted) one; in every
other case a normal is accepted — the first valid cross product. -/
theorem C6_face_scan_rejects_exactly (scale : Vec3) (verts : List Vec3) :
    (exceptIsErr (facescan scale verts) = true ↔
      verts.length < 3 ∨
      (∀ i, i < verts.length → ¬ validat scale verts i) ∨
      (∃ a, a < verts.length ∧ validat scale verts a ∧
        (∀ l, l < a → ¬ validat scale verts l) ∧
        ∃ b, b < verts.length ∧ validat scale verts b ∧
          dotfail (crossat scale verts a) (crossat scale verts b))) ∧
    (∀ st, facescan scale verts = Except.ok st →
      ∃ a, a < verts.length ∧ validat scale verts a ∧
        (∀ l, l < a → ¬ validat scale verts l) ∧
        st.normal = some (crossat scale verts a)) := by
  by_cases hlen : verts.length < 3
  · have hfe : facescan scale verts =
        Except.error "A face of the target has less than 3 vertices." := by
      unfold facescan
      rw [if_pos hlen]
    constructor
    · rw [hfe]
      exact ⟨fun _ => Or.inl hlen, fun _ => rfl⟩
    · intro st hok
      rw [hfe] at hok
      cases hok
  · obtain ⟨niff, nok⟩ := scanloop_none_spec scale verts verts.length 0 initFaceScan rfl rfl
    cases hscan : scanloop scale verts 0 verts.length initFaceScan with
    | error e =>
      have hfe : facescan scale verts = Except.error e := by
        unfold facescan
        rw [if_neg hlen, hscan]
      have herr : exceptIsErr (scanloop scale verts 0 verts.length initFaceScan) = true := by
        rw [hscan]
        rfl
      obtain ⟨a, h1, h2, h3, h4, b, hb1, hb2, hb3, hb4⟩ := niff.mp herr
      constructor
      · rw [hfe]
        constructor
        · intro _
          exact Or.inr (Or.inr ⟨a, by omega, h3,
            fun l hl => h4 l (by omega) hl, b, by omega, hb3, hb4⟩)
        · intro _
          rfl
      · intro st hok
        rw [hfe] at hok
        cases hok
    | ok st0 =>
      cases hnm : st0.normal with
      | none =>
        rcases nok st0 hscan with ⟨hnov, hst⟩ |
          ⟨a, h1, h2, h3, h4, h5, k, hk1, hk2, hk3, hk4, hk5, hk6⟩
        · have hfe : facescan scale verts =
              Except.error "Unable to compute a normal for a face of the target." := by
            unfold facescan
            rw [if_neg hlen, hscan]
            dsimp only
            rw [hnm]
          constructor
          · rw [hfe]
            exact ⟨fun _ => Or.inr (Or.inl fun i hi => hnov i (by omega) (by omega)),
              fun _ => rfl⟩
          · intro st hok
            rw [hfe] at hok
            cases hok
        · rw [hnm] at h5
          cases h5
      | some nv =>
        rcases nok st0 hscan with ⟨hnov, hst⟩ |
          ⟨a, h1, h2, h3, h4, h5, k, hk1, hk2, hk3, hk4, hk5, hk6⟩
        · rw [hst] at hnm
          cases hnm
        · have hfo : facescan scale verts = Except.ok
              { st0 with center := st0.center.map (Vec3.smul (1 / (verts.length : ℚ))) } := by
            unfold facescan
            rw [if_neg hlen, hscan]
            dsimp only
            rw [hnm]
          constructor
          · rw [hfo]
            constructor
            · intro hcon
              cases hcon
            · intro hrhs
              exfalso
              rcases hrhs with hcon | hcon |
                ⟨a2, ha2len, ha2v, ha2first, b, hblen, hbv, hbdot⟩
              · exact hlen hcon
              · exact hcon a (by omega) h3
              · have haa : a2 = a := by
                  rcases Nat.lt_trichotomy a2 a with hlt | heq | hgt
                  · exact absurd ha2v (h4 a2 (by omega) hlt)
                  · exact heq
                  · exact absurd h3 (ha2first a hgt)
                subst haa
                have hba : a2 < b := by
                  rcases Nat.lt_trichotomy b a2 with hlt | heq | hgt
                  · exact absurd hbv (ha2first b hlt)
                  · exact absurd (heq ▸ hbdot) (not_dotfail_self _ ha2v)
                  · exact hgt
                have herr := niff.mpr ⟨a2, by omega, by omega, ha2v,
                  fun l hl1 hl2 => ha2first l hl2, b, hba, by omega, hbv, hbdot⟩
                rw [hscan] at herr
                cases herr
          · intro st hok
            rw [hfo] at hok
            cases hok
            exact ⟨a, by omega, h3, fun l hl => h4 l (by omega) hl, h5⟩

/-- C5 (amended): for every accepted face loop, the stored base edge is the
longest edge among the edges `(v0, v1)` of the iterations that pass the
collinearity skip (edges whose following edge is collinear with them are not
considered); ties keep the first such edge in traversal order.  Lengths are
compared as squares, equivalent for non-negative lengths. -/
theorem C5_amended_base_edge_longest_among_valid (scale : Vec3) (verts : List Vec3)
    (st : FaceScan) (hok : facescan scale verts = Except.ok st) :
    ∃ k, k < verts.length ∧ validat scale verts k ∧
      st.base = some (v0at scale verts k, v1at scale verts k, edgesqat scale verts k) ∧
      (∀ j, j < verts.length → validat scale verts j →
        edgesqat scale verts j ≤ edgesqat scale verts k) ∧
      (∀ j, j < k → validat scale verts j →
        edgesqat scale verts j < edgesqat scale verts k) := by
  by_cases hlen : verts.length < 3
  · unfold facescan at hok
    rw [if_pos hlen] at hok
    cases hok
  · obtain ⟨niff, nok⟩ := scanloop_none_spec scale verts verts.length 0 initFaceScan rfl rfl
    cases hscan : scanloop scale verts 0 verts.length initFaceScan with
    | error e =>
      unfold facescan at hok
      rw [if_neg hlen, hscan] at hok
      cases hok
    | ok st0 =>
      cases hnm : st0.normal with
      | none =>
        unfold facescan at hok
        rw [if_neg hlen, hscan] at hok
        dsimp only at hok
        rw [hnm] at hok
        cases hok
      | some nv =>
        unfold facescan at hok
        rw [if_neg hlen, hscan] at hok
        dsimp only at hok
        rw [hnm] at hok
        cases hok
        rcases nok st0 hscan with ⟨hnov, hst⟩ |
          ⟨a, h1, h2, h3, h4, h5, k, hk1, hk2, hk3, hk4, hk5, hk6⟩
        · rw [hst] at hnm
          cases hnm
        · exact ⟨k, by omega, hk3, hk4,
            fun j hj hjv => hk5 j (by omega) (by omega) hjv,
            fun j hj hjv => hk6 j (by omega) hj hjv⟩

def vone : Vec3 := ⟨1, 1, 1⟩

def triverts : List Vec3 := [⟨0, 0, 0⟩, ⟨1, 0, 0⟩, ⟨0, 1, 0⟩]

/-- A simple planar pentagon whose longest edge, from `(0,0,0)` to
`(10,0,0)`, is followed by the collinear edge to `(12,0,0)`: its loop
iteration is skipped by the collinearity test, so it is never considered as a
base edge. -/
def pentagonverts : List Vec3 :=
  [⟨0, 0, 0⟩, ⟨10, 0, 0⟩, ⟨12, 0, 0⟩, ⟨12, 3, 0⟩, ⟨6, 3, 0⟩]

/-- C5 counterexample: the pentagon face is accepted, and the stored base
edge is `((6,3,0), (0,0,0))` with squared length 45, although the consecutive
loop edge of iteration 0 — from `(0,0,0)` to `(10,0,0)` — has squared length
100 > 45.  So the stored base edge is not the longest edge among all
consecutive loop edges, refuting the claim as stated. -/
theorem C5_counterexample_longest_edge_skipped :
    facescan vone pentagonverts = Except.ok
      ⟨some ⟨0, 0, 6⟩, some (⟨6, 3, 0⟩, ⟨0, 0, 0⟩, 45), some ⟨8, 6 / 5, 0⟩⟩ ∧
    edgesqat vone pentagonverts 0 = 100 ∧
    ((45 : ℚ) < 100) := by
  refine ⟨?_, ?_, by norm_num⟩
  · norm_num [facescan, scanloop, scanstep, initFaceScan, updbase, updcenter, crossat,
      v0at, v1at, v2at, vecmult, Vec3.cross, Vec3.sub, Vec3.add, Vec3.dot, Vec3.sqlen,
      Vec3.smul, dotfail, NORMALERROR, pentagonverts, vone, List.getD]
  · norm_num [edgesqat, v0at, v1at, vecmult, Vec3.sub, Vec3.dot, Vec3.sqlen,
      pentagonverts, vone, List.getD]

/-- Witness for the amended C5 at the concrete pentagon. -/
theorem C5_amended_witness :
    ∃ k, k < pentagonverts.length ∧ validat vone pentagonverts k ∧
      (FaceScan.mk (some ⟨0, 0, 6⟩) (some (⟨6, 3, 0⟩, ⟨0, 0, 0⟩, 45))
          (some ⟨8, 6 / 5, 0⟩)).base =
        some (v0at vone pentagonverts k, v1at vone pentagonverts k,
          edgesqat vone pentagonverts k) ∧
      (∀ j, j < pentagonverts.length → validat vone pentagonverts j →
        edgesqat vone pentagonverts j ≤ edgesqat vone pentagonverts k) ∧
      (∀ j, j < k → validat vone pentagonverts j →
        edgesqat vone pentagonverts j < edgesqat vone pentagonverts k) :=
  C5_amended_base_edge_longest_among_valid vone pentagonverts _ (by
    norm_num [facescan, scanloop, scanstep, initFaceScan, updbase, updcenter, crossat,
      v0at, v1at, v2at, vecmult, Vec3.cross, Vec3.sub, Vec3.add, Vec3.dot, Vec3.sqlen,
      Vec3.smul, dotfail, NORMALERROR, pentagonverts, vone, List.getD])

/-- Witness for C6 at a concrete triangle: the scan accepts it and its normal
is the first valid cross product. -/
theorem C6_face_scan_rejects_exactly_witness :
    ∃ a, a < triverts.length ∧ validat vone triverts a ∧
      (∀ l, l < a → ¬ validat vone triverts l) ∧
      (FaceScan.mk (some ⟨0, 0, 1⟩) (some (⟨1, 0, 0⟩, ⟨0, 1, 0⟩, 2))
          (some ⟨1 / 3, 1 / 3, 0⟩)).normal =
        some (crossat vone triverts a) :=
  (C6_face_scan_rejects_exactly vone triverts).2 _ (by
    norm_num [facescan, scanloop, scanstep, initFaceScan, updbase, updcenter, crossat,
      v0at, v1at, v2at, vecmult, Vec3.cross, Vec3.sub, Vec3.add, Vec3.dot, Vec3.sqlen,
      Vec3.smul, dotfail, NORMALERROR, triverts, vone, List.getD])

/-! ## The planarity assertion (impostormaker.py lines 336 and 476)

Both `ImpostorFace.__init__` and `ImpostorFace.setuvs` check a projected
vertex with the statement `assert abs(pt[2] < 0.01)`.  In Python the inner
comparison yields a bool before `abs` is applied; `abs(True) == 1` and
`abs(False) == 0`, and `assert v` passes iff `v` is truthy, i.e. nonzero.
So the assertion passes iff `pt[2] < 0.01` holds — a one-sided test. -/

def pybool (b : Bool) : Int := if b then 1 else 0

/-- The assertion of lines 336/476, for a projected plane-local Z value. -/
def planarityassertpasses (z : ℚ) : Bool :=
  decide (|pybool (decide (z < 1 / 100))| ≠ 0)

/-- C7 (code bug): the claim says a projected vertex whose plane-local Z
differs from zero by at least 0.01 in either sign is rejected by the
assertion.  The assertion as written accepts `Z = -1` (which is 1 away from
zero), because `abs` is applied to the boolean result of `Z < 0.01`; only the
positive side (for example `Z = 0.017`) is rejected. -/
theorem C7_planarity_assert_is_one_sided :
    planarityassertpasses (-1) = true ∧
    ¬ (|(-1 : ℚ)| < 1 / 100) ∧
    planarityassertpasses (17 / 1000) = false ∧
    ¬ (|(17 / 1000 : ℚ)| < 1 / 100) := by
  refine ⟨?_, by norm_num, ?_,
    by rw [show |(17 / 1000 : ℚ)| = 17 / 1000 from abs_of_pos (by norm_num)]; norm_num⟩
  · norm_num [planarityassertpasses, pybool]
  · norm_num [planarityassertpasses, pybool]
